import Mathlib

/-!
Verification development for the multi-speaker capture-to-transcript pipeline
(`magic-minutes`).  The definitions below are a shallow embedding of the
JavaScript source: the transcription service (`services/transcription.js`),
the session registry, capture manager and stop path, the per-participant
processing/orchestration loop, and the `splitMessage` delivery helper
(`commands/voice.js`).  File-system contents, external API calls and ffmpeg
are abstracted into explicit environments; control flow, branch conditions
and numeric constants follow the source line by line.
-/

namespace MagicMinutes

/-! ## Transcription service (services/transcription.js)

`transcribeAudio(filePath)` stats the file (errors swallowed by `.catch`),
then runs a `while (attempt < maxAttempts)` loop.  Every attempt reads the
file and calls the generative API inside `try`; the `catch` block classifies
the error and either returns `null` (terminal, or attempts exhausted) or
sleeps `min(4000, 1000 * 2 ** (attempt - 1))` ms and retries. -/

/-- A JavaScript error value as inspected by the catch block:
`error?.code`, `error?.status` (`none` = `undefined`), `error?.name`,
`error?.type`, and whether `error?.message` contains `"API key"`. -/
structure JsError where
  code : Option String
  status : Option Nat
  name : Option String
  type : Option String
  messageHasAPIKey : Bool
deriving DecidableEq, Repr

/-- `const transcientCodes = new Set(['ECONNRESET', 'ETIMEDOUT', 'ECONNREFUSED', 'EAI_AGAIN'])`. -/
def transientCodes : List String :=
  ["ECONNRESET", "ETIMEDOUT", "ECONNREFUSED", "EAI_AGAIN"]

/-- The `isTransient` classification of the catch block:
`transientCodes.has(error?.code) || error?.status >= 500 ||
error?.name === 'APIConnectionError' || error?.type === 'api_connection_error' ||
error?.status === undefined`.  In JS, `undefined >= 500` is `false`, so the
status comparison only fires for a defined status. -/
def isTransient (e : JsError) : Bool :=
  (match e.code with
   | some c => transientCodes.contains c
   | none => false) ||
  (match e.status with
   | some s => decide (500 ≤ s)
   | none => false) ||
  (e.name == some "APIConnectionError") ||
  (e.type == some "api_connection_error") ||
  (e.status == none)

/-- `const maxAttempts = 3`. -/
def maxAttempts : Nat := 3

/-- `const delayMs = Math.min(4000, 1000 * 2 ** (attempt - 1))`. -/
def delayMs (attempt : Nat) : Nat := min 4000 (1000 * 2 ^ (attempt - 1))

/-- Environment abstracting the file system and the API: the result of the
initial `stat`, and per attempt the result of `readFile` and of the
`generateContent`/`response.text()` call (which receives the read data). -/
structure TranscribeEnv where
  statResult : Except JsError Nat
  readResult : Nat → Except JsError String
  apiResult : Nat → String → Except JsError String

/-- One iteration of the `try` block at attempt number `a`: read the file,
then call the API with its contents; a rejection of either step escapes to
the `catch`. -/
def attemptOnce (env : TranscribeEnv) (a : Nat) : Except JsError String :=
  match env.readResult a with
  | .error e => .error e
  | .ok data => env.apiResult a data

/-- Decision taken by the `catch` block for an error at attempt `a`. -/
inductive CatchResult where
  | giveUp
  | retry (delay : Nat)
deriving DecidableEq, Repr

/-- The `catch` block: `if (!isTransient || attempt >= maxAttempts) return null`
else sleep `delayMs` and loop again.  It never rethrows. -/
def catchHandler (e : JsError) (a : Nat) : CatchResult :=
  if !isTransient e || maxAttempts ≤ a then .giveUp
  else .retry (delayMs a)

/-- Observable outcome of one `transcribeAudio` run: the value returned
(`some text` or `none` for `null`), how many attempts were started, and the
back-off delays slept between attempts, in order. -/
structure RunResult where
  result : Option String
  attemptsMade : Nat
  delays : List Nat
deriving DecidableEq, Repr

/-- The `while (attempt < maxAttempts)` loop.  `attempt` is the counter so
far, `fuel = maxAttempts - attempt` counts the remaining loop iterations;
falling out of the loop returns `null`. -/
def transcribeFrom (outcomes : Nat → Except JsError String) :
    Nat → Nat → RunResult
  | attempt, 0 => ⟨none, attempt, []⟩
  | attempt, fuel + 1 =>
    match outcomes (attempt + 1) with
    | .ok t => ⟨some t, attempt + 1, []⟩
    | .error e =>
      match catchHandler e (attempt + 1) with
      | .giveUp => ⟨none, attempt + 1, []⟩
      | .retry d =>
        let r := transcribeFrom outcomes (attempt + 1) fuel
        ⟨r.result, r.attemptsMade, d :: r.delays⟩

/-- `const { size } = await stat(filePath).catch(() => ({ size: 0 }))`. -/
def statSize (env : TranscribeEnv) : Nat :=
  match env.statResult with
  | .ok n => n
  | .error _ => 0

/-- `transcribeAudio`: the stat size (used for logging) and the retry loop. -/
def transcribeAudio (env : TranscribeEnv) : Nat × RunResult :=
  (statSize env, transcribeFrom (attemptOnce env) 0 maxAttempts)

/-- A promise `.catch` combinator: `x.catch(h)`. -/
def exceptCatch {α : Type} (x : Except JsError α) (h : JsError → Except JsError α) :
    Except JsError α :=
  match x with
  | .ok a => .ok a
  | .error e => h e

/-- The whole `transcribeAudio` body with its exception channel explicit:
a rejection anywhere would surface as `.error`.  The `stat` rejection is
absorbed by its attached `.catch` handler (yielding `size = 0`), and every
rejection of `readFile` or of the API call happens inside the loop's
`try`/`catch`, which `transcribeFrom` consumes totally. -/
def transcribeAudioChecked (env : TranscribeEnv) : Except JsError (Nat × RunResult) :=
  match exceptCatch (Except.map id env.statResult) (fun _ => .ok 0) with
  | .error e => .error e
  | .ok size => .ok (size, transcribeFrom (attemptOnce env) 0 maxAttempts)

/-- Representative errors used in concrete runs. -/
def errReset : JsError := ⟨some "ECONNRESET", none, none, none, false⟩

def errTimedOut : JsError := ⟨some "ETIMEDOUT", none, none, none, false⟩

def errDnsAgain : JsError := ⟨some "EAI_AGAIN", none, none, none, false⟩

def errDnsNotFound : JsError := ⟨some "ENOTFOUND", none, none, none, false⟩

def errConnLayer : JsError := ⟨none, none, some "APIConnectionError", none, false⟩

def errNoStatus : JsError := ⟨none, none, none, none, false⟩

def err503 : JsError := ⟨none, some 503, none, none, false⟩

def err401 : JsError := ⟨none, some 401, none, none, false⟩

def err429 : JsError := ⟨none, some 429, some "RateLimitError", some "rate_limit_error", false⟩

def err400 : JsError := ⟨none, some 400, none, none, false⟩

/-- Environment whose every read/API step fails with the same error. -/
def envConst (e : JsError) : TranscribeEnv :=
  ⟨.ok 0, fun _ => .error e, fun _ _ => .error e⟩

/-! ## JavaScript string primitives

Strings are modelled as `List Char`.  `jsSplit` is `String.prototype.split`
with a single-character separator (keeps empty pieces, `"" → [""]`),
`jsTrim` is `String.prototype.trim` (strip leading and trailing whitespace),
`take`/`drop` are `substring`. -/

/-- Whitespace as far as `trim` is concerned (the characters that occur in
this pipeline's strings). -/
def wsChar (c : Char) : Bool :=
  c == ' ' || c == '\n' || c == '\t' || c == '\r'

/-- Strip trailing whitespace. -/
def trimRight (s : List Char) : List Char :=
  (s.reverse.dropWhile wsChar).reverse

/-- `s.trim()`: strip leading then trailing whitespace. -/
def jsTrim (s : List Char) : List Char :=
  trimRight (s.dropWhile wsChar)

/-- `s.split(sep)` for a one-character separator: splits at every
occurrence, keeping empty pieces; the result is never the empty list. -/
def jsSplit (sep : Char) : List Char → List (List Char)
  | [] => [[]]
  | c :: rest =>
    let r := jsSplit sep rest
    if c = sep then [] :: r
    else
      match r with
      | [] => [[c]]
      | w :: ws => (c :: w) :: ws

/-! ## splitMessage (commands/voice.js)

`splitMessage(text, maxLength)` walks the lines of `text`.  A line longer
than `maxLength` first flushes the accumulated chunk *untrimmed*, then is
word-wrapped (`tempLine` accumulation with a one-shot force split for an
oversized word); any other line is accumulated into `currentChunk`, flushing
(trimmed) when it would overflow. -/

/-- The inner `for (const word of words)` loop of `splitMessage`.  Returns
the chunks pushed by the loop, in order, and the final `tempLine`.
The first branch is the JS `else` of `if (tempLine)` (force split of a word
when `tempLine` is empty); the second is the `if (tempLine)` push. -/
def wrapWords (maxLength : Nat) : List (List Char) → List Char → List (List Char) × List Char
  | [], temp => ([], temp)
  | w :: ws, temp =>
    if maxLength < temp.length + w.length + 1 then
      if temp.isEmpty then
        let r := wrapWords maxLength ws (w.drop maxLength ++ [' '])
        (w.take maxLength :: r.1, r.2)
      else
        let r := wrapWords maxLength ws (w ++ [' '])
        (jsTrim temp :: r.1, r.2)
    else
      wrapWords maxLength ws (temp ++ w ++ [' '])

/-- The outer `for (const line of lines)` loop of `splitMessage`, together
with the final `if (currentChunk) chunks.push(currentChunk.trim())`.
Returns the chunks pushed from the current state onward. -/
def splitLines (maxLength : Nat) : List (List Char) → List Char → List (List Char)
  | [], cur => if cur.isEmpty then [] else [jsTrim cur]
  | line :: rest, cur =>
    if maxLength < line.length then
      -- long line: flush current chunk raw (no trim), then word-wrap
      let pre : List (List Char) := if cur.isEmpty then [] else [cur]
      let r := wrapWords maxLength (jsSplit ' ' line) []
      let cur2 : List Char := if r.2.isEmpty then [] else jsTrim r.2 ++ ['\n']
      pre ++ r.1 ++ splitLines maxLength rest cur2
    else if maxLength < cur.length + line.length + 1 then
      let pre : List (List Char) := if cur.isEmpty then [] else [jsTrim cur]
      pre ++ splitLines maxLength rest (line ++ ['\n'])
    else
      splitLines maxLength rest (cur ++ line ++ ['\n'])

/-- `splitMessage(text, maxLength)`. -/
def splitMessage (text : List Char) (maxLength : Nat) : List (List Char) :=
  splitLines maxLength (jsSplit '\n' text) []

/-- Rejoin message units with newlines (the round-trip operation of the
spec's testable property). -/
def joinNl : List (List Char) → List Char
  | [] => []
  | [c] => c
  | c :: rest => c ++ '\n' :: joinNl rest

/-- The non-whitespace content of a string: the subsequence of characters
that `trim`, line splitting and word wrapping may never alter. -/
def nonWs (s : List Char) : List Char :=
  s.filter (fun c => !wsChar c)

/-! ## Session registry and capture manager (commands/voice.js)

`activeRecordings` is a process-wide `Map(guildId → recordingData)`;
`startRecording` rejects when the guild already has an entry, otherwise
inserts fresh recording data with an empty `audioStreams` map.  The
`speaking.on('start')` handler lazily creates one persistent subscription,
decoder pipeline and append-mode write stream per user, and is a no-op when
a persistent entry already exists.  `stopRecording` gracefully ends every
write stream (with a 2000 ms force-destroy timer per stream, and a 3000 ms
cap on the overall wait), removes the guild from the map, and only then
hands the data to `processRecordings`. -/

/-- State of one participant's write stream. -/
inductive CaptureState where
  | capturing
  | closed
deriving DecidableEq, Repr

/-- One entry of `recordingData.audioStreams`: the per-user capture record
created by the speaking handler.  `cleanCloseTime` abstracts how long the
`writeStream.end` callback would take to fire (`none` = it never fires). -/
structure ParticipantCapture where
  persistent : Bool
  state : CaptureState
  pipelineId : Nat
  cleanCloseTime : Option Nat
deriving DecidableEq, Repr

/-- Lifecycle phase of a session (in the source this is implicit: a guild in
`activeRecordings` is recording; after stop its data is handed to
`processRecordings`). -/
inductive SessionPhase where
  | recording
  | processing
deriving DecidableEq, Repr

/-- `recordingData` for one guild. -/
structure Session where
  phase : SessionPhase
  startTime : Nat
  audioStreams : List (String × ParticipantCapture)
  reconnectAttempts : Nat
deriving DecidableEq, Repr

/-- The `activeRecordings` map, as an insertion-ordered association list. -/
abbrev Registry := List (String × Session)

/-- `activeRecordings.has(guildId)`. -/
def hasGuild (reg : Registry) (g : String) : Bool :=
  reg.any (fun p => p.1 == g)

/-- `activeRecordings.get(guildId)`. -/
def lookupGuild : Registry → String → Option Session
  | [], _ => none
  | (v, s) :: rest, g => if v == g then some s else lookupGuild rest g

/-- `activeRecordings.delete(guildId)`. -/
def removeGuild (reg : Registry) (g : String) : Registry :=
  reg.filter (fun p => p.1 != g)

/-- Result of a `startRecording` call. -/
inductive StartOutcome where
  | started
  | alreadyActive
deriving DecidableEq, Repr

/-- `startRecording`: `if (activeRecordings.has(guildId)) reply('Already
recording in this server!')`, otherwise join the channel and
`activeRecordings.set(guildId, recordingData)` with a fresh (empty)
`audioStreams` map. -/
def startRecording (reg : Registry) (g : String) (now : Nat) : StartOutcome × Registry :=
  if hasGuild reg g then (.alreadyActive, reg)
  else (.started, (g, ⟨.recording, now, [], 0⟩) :: reg)

/-- `audioStreams.get(userId)`. -/
def lookupStream : List (String × ParticipantCapture) → String → Option ParticipantCapture
  | [], _ => none
  | (v, p) :: rest, u => if v == u then some p else lookupStream rest u

/-- `audioStreams.set(userId, entry)`: replace in place, else append. -/
def setStream : List (String × ParticipantCapture) → String → ParticipantCapture →
    List (String × ParticipantCapture)
  | [], u, p => [(u, p)]
  | (v, q) :: rest, u, p =>
    if v == u then (u, p) :: rest else (v, q) :: setStream rest u p

/-- The capture-manager state the speaking handler can reach: whether the
recording is still active (`activeRecordings.has(guildId)`), the session,
the log of decode-pipeline creations (one `prism.opus.Decoder` plus one
append write stream per entry), and a fresh-id counter. -/
structure CaptureWorld where
  active : Bool
  session : Session
  createdPipelines : List (String × Nat)
  nextId : Nat
deriving DecidableEq, Repr

/-- Creation path of the speaking handler: open the aggregated write stream,
subscribe, build the decoder pipeline, and `audioStreams.set(userId, {...,
persistent: true, ...})`. -/
def createStream (w : CaptureWorld) (u : String) : CaptureWorld :=
  { w with
    session := { w.session with
      audioStreams := setStream w.session.audioStreams u ⟨true, .capturing, w.nextId, none⟩ }
    createdPipelines := w.createdPipelines ++ [(u, w.nextId)]
    nextId := w.nextId + 1 }

/-- The `connection.receiver.speaking.on('start')` handler: bail out when
the recording is gone; if the user is already tracked with a persistent
subscription, return without creating anything; otherwise create the
pipeline and register the entry. -/
def speakingStart (w : CaptureWorld) (u : String) : CaptureWorld :=
  if !w.active then w
  else
    match lookupStream w.session.audioStreams u with
    | some ex => if ex.persistent then w else createStream w u
    | none => createStream w u

/-- `n` consecutive speaking-started events for the same user. -/
def applyEvents (w : CaptureWorld) (u : String) : Nat → CaptureWorld
  | 0 => w
  | n + 1 => speakingStart (applyEvents w u n) u

/-- Number of `audioStreams` entries held for a user. -/
def countStreams (l : List (String × ParticipantCapture)) (u : String) : Nat :=
  (l.filter (fun p => p.1 == u)).length

/-- Number of decode pipelines ever created for a user. -/
def countPipelines (w : CaptureWorld) (u : String) : Nat :=
  (w.createdPipelines.filter (fun p => p.1 == u)).length

/-- `setTimeout(() => { writeStream.destroy(); resolve(); }, 2000)`:
per-stream force-close timeout. -/
def forceCloseMs : Nat := 2000

/-- `new Promise(resolve => setTimeout(resolve, 3000))`: cap on the overall
wait for all streams to close. -/
def stopAllWaitMs : Nat := 3000

/-- Finalize one capture, as the per-stream close promise does: an already
destroyed stream resolves immediately; otherwise `writeStream.end` resolves
when its callback fires, raced against the 2000 ms force-destroy timer.
Returns the capture afterwards and the time at which the promise resolved. -/
def finalizeCapture (p : ParticipantCapture) : ParticipantCapture × Nat :=
  match p.state with
  | .closed => (p, 0)
  | .capturing =>
    match p.cleanCloseTime with
    | some t =>
      if t ≤ forceCloseMs then ({ p with state := .closed }, t)
      else ({ p with state := .closed }, forceCloseMs)
    | none => ({ p with state := .closed }, forceCloseMs)

/-- Result of a `stopRecording` call. -/
inductive StopOutcome where
  | stopped
  | noActiveRecording
deriving DecidableEq, Repr

/-- Result of a `stopRecording` call: the outcome, the finalized session as
handed to `processRecordings` (none on error), the registry afterwards, and
how long the stop path waited for stream closure. -/
structure StopResult where
  outcome : StopOutcome
  finalized : Option Session
  registry : Registry
  waitMs : Nat
deriving Repr

/-- `Promise.all` waits for the slowest close promise. -/
def maxWait (l : List Nat) : Nat :=
  l.foldl max 0

/-- `stopRecording`: reject when no active recording; otherwise gracefully
close every stream (`Promise.race([Promise.all(closePromises), 3000 ms])`),
remove the guild from `activeRecordings`, and hand the finalized data over
for processing. -/
def stopRecording (reg : Registry) (g : String) : StopResult :=
  match lookupGuild reg g with
  | none => ⟨.noActiveRecording, none, reg, 0⟩
  | some s =>
    let fin := s.audioStreams.map (fun p => (p.1, (finalizeCapture p.2).1))
    let durations := s.audioStreams.map (fun p => (finalizeCapture p.2).2)
    ⟨.stopped, some { s with phase := .processing, audioStreams := fin },
      removeGuild reg g, min (maxWait durations) stopAllWaitMs⟩

/-! ## processRecordings (commands/voice.js)

The processing loop walks `audioStreams` in order.  Per user: an existing
but zero-byte aggregated capture is skipped with a warning before anything
else happens; a positive-size capture is transcoded to MP3 (ffmpeg, scaled
timeout); then the orchestrator decides between proactive chunking
(`mp3MB > PROACTIVE_CHUNK_MB`) and whole-file-first with chunked fallback.
Per-chunk transcriptions are concatenated in order, failed chunks are
logged and skipped.  Transcript text is modelled as `List Char`; the file
system, ffmpeg and the transcription service are abstracted by `ProcEnv`. -/

/-- `const PROACTIVE_CHUNK_MB = Number(process.env.PROACTIVE_CHUNK_MB || 12)`. -/
def PROACTIVE_CHUNK_MB : Nat := 12

/-- The chunk threshold in bytes: `mp3MB > PROACTIVE_CHUNK_MB` with
`mp3MB = mp3Bytes / (1024 * 1024)` is exactly `mp3Bytes > threshold` (the
division by `2 ^ 20` is exact in floating point). -/
def chunkThresholdBytes : Nat := PROACTIVE_CHUNK_MB * 1024 * 1024

/-- What `processRecordings` found on disk for one user: the `audioStreams`
record reduced to the facts the branches inspect. -/
structure UserRecord where
  persistent : Bool
  aggregatedExists : Bool
  aggregatedSize : Nat
  files : List Nat
deriving DecidableEq, Repr

/-- Environment for processing: per user, whether the ffmpeg conversion
succeeds, the size of the produced MP3, the chunk files produced by
`splitAudioIntoChunks` (as indices), and the transcription results for each
chunk and for the whole file (`none` = `transcribeAudio` returned null). -/
structure ProcEnv where
  transcodeOk : String → Bool
  mp3Size : String → Nat
  chunkFiles : String → List Nat
  chunkText : String → Nat → Option (List Char)
  wholeText : String → Option (List Char)

/-- External calls the processing loop makes, in order. -/
inductive Event where
  | transcode (u : String)
  | transcribeWhole (u : String)
  | transcribeChunk (u : String) (i : Nat)
deriving DecidableEq, Repr

/-- Per-user outcome of the processing loop. -/
inductive UserOutcome where
  | emptyCapture
  | noRecording
  | emptyMerged
  | conversionFailed
  | processed (t : List Char)
deriving DecidableEq, Repr

/-- The per-chunk loop: transcribe each chunk in order, append successful
non-empty results followed by a newline (`if (partText) transcription +=
partText + '\n'`), skip failures. -/
def combineChunks (env : ProcEnv) (u : String) : List Nat → List Char × List Event
  | [] => ([], [])
  | i :: rest =>
    let r := combineChunks env u rest
    let piece : List Char :=
      match env.chunkText u i with
      | some t => if t.isEmpty then [] else t ++ ['\n']
      | none => []
    (piece ++ r.1, .transcribeChunk u i :: r.2)

/-- The transcription strategy for one MP3 artifact of `mp3Bytes` bytes:
proactive chunking above the threshold (whole-file only as a last resort
when no chunks were produced), otherwise whole-file first with chunked
fallback when it returns a falsy result. -/
def orchestrateTranscription (env : ProcEnv) (u : String) (mp3Bytes : Nat) :
    List Char × List Event :=
  if chunkThresholdBytes < mp3Bytes then
    let cs := env.chunkFiles u
    if cs.isEmpty then
      -- "No chunks were produced for proactive transcription; attempting
      -- whole-file transcription."
      ((env.wholeText u).getD [], [.transcribeWhole u])
    else
      let r := combineChunks env u cs
      (jsTrim r.1, r.2)
  else
    let w := (env.wholeText u).getD []
    if w.isEmpty then
      -- full-file transcription failed: chunked transcription fallback
      let cs := env.chunkFiles u
      if cs.isEmpty then (w, [.transcribeWhole u])
      else
        let r := combineChunks env u cs
        (jsTrim r.1, .transcribeWhole u :: r.2)
    else (w, [.transcribeWhole u])

/-- Processing for one user of `audioStreams`, mirroring the body of the
`for (const [userId, record] of userRecordings)` loop: skip an existing but
empty aggregated capture before any conversion; skip when nothing was
recorded; merge (legacy mode) and reject an empty merge; convert to MP3;
orchestrate transcription. -/
def processUser (env : ProcEnv) (u : String) (rec : UserRecord) :
    UserOutcome × List Event :=
  if rec.persistent && rec.aggregatedExists && decide (rec.aggregatedSize = 0) then
    (.emptyCapture, [])
  else
    let useAgg := rec.persistent && rec.aggregatedExists && decide (0 < rec.aggregatedSize)
    if !useAgg && rec.files.isEmpty then (.noRecording, [])
    else
      let pcm := if useAgg then [rec.aggregatedSize] else rec.files
      if pcm.isEmpty then (.noRecording, [])
      else
        let mergedSize := if useAgg then rec.aggregatedSize else rec.files.foldl Nat.add 0
        if mergedSize = 0 then (.emptyMerged, [])
        else if !env.transcodeOk u then (.conversionFailed, [.transcode u])
        else
          let mp3Bytes := env.mp3Size u
          if mp3Bytes = 0 then (.conversionFailed, [.transcode u])
          else
            let r := orchestrateTranscription env u mp3Bytes
            (.processed r.1, .transcode u :: r.2)

/-- Contribution of one user to `allTranscriptions`:
`if (transcription) allTranscriptions += `**name:**\n` + transcription + '\n\n'`. -/
def userContribution (u : String) (o : UserOutcome) : List Char :=
  match o with
  | .processed t =>
    if t.isEmpty then []
    else "**".toList ++ u.toList ++ ":**\n".toList ++ t ++ "\n\n".toList
  | _ => []

/-- The whole processing loop: per-user outcomes (in map order), the
accumulated `allTranscriptions` text, and the external calls made. -/
def processAll (env : ProcEnv) :
    List (String × UserRecord) → List (String × UserOutcome) × List Char × List Event
  | [] => ([], [], [])
  | (u, rec) :: rest =>
    let r := processUser env u rec
    let rr := processAll env rest
    ((u, r.1) :: rr.1, userContribution u r.1 ++ rr.2.1, r.2 ++ rr.2.2)

/-! ## Invariants and concrete fixtures used by the theorems -/

/-- Invariant of `tempLine` in the word-wrap loop: empty, or some content of
length at most `maxLength` followed by the trailing space the loop just
appended. -/
def tempInv (maxLength : Nat) (t : List Char) : Prop :=
  t = [] ∨ ∃ t0, t = t0 ++ [' '] ∧ t0.length ≤ maxLength

/-- Invariant of `currentChunk` in the line loop: empty, or some content of
length at most `maxLength` followed by the trailing newline the loop just
appended. -/
def curInv (maxLength : Nat) (c : List Char) : Prop :=
  c = [] ∨ ∃ c0, c = c0 ++ ['\n'] ∧ c0.length ≤ maxLength

/-- A concrete session with one clean-closing and one hanging capture. -/
def sampleSession : Session :=
  ⟨.recording, 0,
    [("alice", ⟨true, .capturing, 0, some 10⟩), ("bob", ⟨true, .capturing, 1, none⟩)], 0⟩

/-- A registry with one active recording. -/
def sampleRegistry : Registry := [("guild1", sampleSession)]

/-- A capture world with an active recording and no stream for "carol". -/
def sampleWorld : CaptureWorld := ⟨true, sampleSession, [("alice", 0), ("bob", 1)], 2⟩

/-- Processing environment for the oversized-artifact counterexample: ffmpeg
converts fine, the MP3 is 15 MB (above the 12 MB threshold), segmentation
yields no chunks, whole-file transcription would succeed. -/
def cexProcEnv : ProcEnv :=
  ⟨fun _ => true, fun _ => 15 * 1048576, fun _ => [], fun _ _ => none,
   fun _ => some "hi".toList⟩

/-- Processing environment with two chunks, the second failing. -/
def chunkProcEnv : ProcEnv :=
  ⟨fun _ => true, fun _ => 15 * 1048576, fun _ => [0, 1],
   fun _ i => if i = 0 then some "first".toList else none,
   fun _ => some "whole".toList⟩

/-- A persistent aggregated capture of 100 bytes. -/
def sampleRecord : UserRecord := ⟨true, true, 100, []⟩

/-- A persistent aggregated capture that stayed empty. -/
def emptyRecord : UserRecord := ⟨true, true, 0, []⟩

/-! # Theorems -/

/-! ## C1: second start for the same scope is rejected -/

/-- C1: for every scope with a non-Closed session in the registry
(`activeRecordings.has(guildId)`), a second `startRecording` call returns
the already-active rejection and leaves the registry — hence the existing
session's participant map and state — unchanged; no second session state is
created. -/
theorem startRecording_second_rejected (reg : Registry) (g : String) (now : Nat)
    (h : hasGuild reg g = true) :
    startRecording reg g now = (.alreadyActive, reg) ∧
    lookupGuild (startRecording reg g now).2 g = lookupGuild reg g := by
  simp [startRecording, h]

/-- C1 witness: a concrete registry already recording for "guild1". -/
theorem startRecording_second_rejected_witness :
    hasGuild sampleRegistry "guild1" = true ∧
    (startRecording sampleRegistry "guild1" 5 = (.alreadyActive, sampleRegistry) ∧
     lookupGuild (startRecording sampleRegistry "guild1" 5).2 "guild1" =
       lookupGuild sampleRegistry "guild1") :=
  ⟨by decide, startRecording_second_rejected sampleRegistry "guild1" 5 (by decide)⟩

/-! ## C5: exactly three attempts under persistent transient failure -/

/-- C5: when the first three attempts all fail with transient errors,
`transcribeAudio` makes exactly 3 attempts, sleeps
`min(4000, 1000 * 2 ** (attempt - 1))` between them — 1000 ms then
2000 ms — and returns null; no 4th attempt occurs (the run result records
every attempt started). -/
theorem transcribeAudio_three_transient (env : TranscribeEnv) (e1 e2 e3 : JsError)
    (h1 : attemptOnce env 1 = .error e1) (t1 : isTransient e1 = true)
    (h2 : attemptOnce env 2 = .error e2) (t2 : isTransient e2 = true)
    (h3 : attemptOnce env 3 = .error e3) (t3 : isTransient e3 = true) :
    (transcribeAudio env).2 = ⟨none, 3, [delayMs 1, delayMs 2]⟩ ∧
    delayMs 1 = min 4000 (1000 * 2 ^ (1 - 1)) ∧ delayMs 1 = 1000 ∧
    delayMs 2 = min 4000 (1000 * 2 ^ (2 - 1)) ∧ delayMs 2 = 2000 := by
  refine ⟨?_, rfl, by decide, rfl, by decide⟩
  show transcribeFrom (attemptOnce env) 0 maxAttempts = _
  simp only [maxAttempts, transcribeFrom, h1, h2, h3, catchHandler, t1, t2, t3]
  decide

/-- C5 witness: every attempt rejects with `ECONNRESET`. -/
theorem transcribeAudio_three_transient_witness :
    (attemptOnce (envConst errReset) 1 = .error errReset ∧ isTransient errReset = true ∧
     attemptOnce (envConst errReset) 2 = .error errReset ∧
     attemptOnce (envConst errReset) 3 = .error errReset) ∧
    ((transcribeAudio (envConst errReset)).2 = ⟨none, 3, [delayMs 1, delayMs 2]⟩ ∧
     delayMs 1 = min 4000 (1000 * 2 ^ (1 - 1)) ∧ delayMs 1 = 1000 ∧
     delayMs 2 = min 4000 (1000 * 2 ^ (2 - 1)) ∧ delayMs 2 = 2000) :=
  ⟨⟨rfl, by decide, rfl, rfl⟩,
   transcribeAudio_three_transient (envConst errReset) errReset errReset errReset
     rfl (by decide) rfl (by decide) rfl (by decide)⟩

/-! ## C6: transient/terminal classification (corrected: 429 is terminal) -/

/-- C6 counterexample: a rate-limit error (defined status 429, as raised by
the API client) is classified NOT transient, and a call that hits it
returns null after a single attempt with no retry — the claim's "rate-limit
(429) responses ... transient (retried)" fails on the code. -/
theorem rateLimit_terminal_cex :
    isTransient err429 = false ∧
    (transcribeAudio (envConst err429)).2 = ⟨none, 1, []⟩ := by
  constructor
  · decide
  · rfl

/-- C6 (amended): network resets/timeouts/refusals/DNS backoffs (the
transient code set), server-side 5xx statuses, and undetermined
connection-layer failures (undefined status) are transient and retried up
to the 3-attempt ceiling, while defined non-5xx statuses — authentication
failure (401), malformed input (400) and rate limit (429) — are terminal
and return null immediately without consuming the remaining attempts. -/
theorem transient_terminal_classification (e1 e2 e3 : JsError) (c : String) (s : Nat)
    (hc : transientCodes.contains c = true) (h1 : e1.code = some c)
    (h2 : e2.status = some s) (h5 : 500 ≤ s)
    (h3 : e3.status = none) :
    isTransient e1 = true ∧ isTransient e2 = true ∧ isTransient e3 = true ∧
    (transcribeAudio (envConst err503)).2.attemptsMade = 3 ∧
    isTransient err401 = false ∧ isTransient err400 = false ∧ isTransient err429 = false ∧
    (transcribeAudio (envConst err401)).2 = ⟨none, 1, []⟩ ∧
    (transcribeAudio (envConst err400)).2 = ⟨none, 1, []⟩ ∧
    (transcribeAudio (envConst err429)).2 = ⟨none, 1, []⟩ := by
  refine ⟨?_, ?_, ?_, by decide, by decide, by decide, by decide, rfl, rfl, rfl⟩
  · simp only [isTransient, h1, Bool.or_eq_true, decide_eq_true_eq]
    exact Or.inl (Or.inl (Or.inl (Or.inl (by simpa using hc))))
  · simp [isTransient, h2, h5]
  · simp [isTransient, h3]

/-- C6 witness: concrete transient representatives — `ECONNRESET`, a 503
response, an undefined-status network failure. -/
theorem transient_terminal_classification_witness :
    (transientCodes.contains "ECONNRESET" = true ∧ errReset.code = some "ECONNRESET" ∧
     err503.status = some 503 ∧ 500 ≤ 503 ∧ errNoStatus.status = none) ∧
    (isTransient errReset = true ∧ isTransient err503 = true ∧
     isTransient errNoStatus = true ∧
     (transcribeAudio (envConst err503)).2.attemptsMade = 3 ∧
     isTransient err401 = false ∧ isTransient err400 = false ∧ isTransient err429 = false ∧
     (transcribeAudio (envConst err401)).2 = ⟨none, 1, []⟩ ∧
     (transcribeAudio (envConst err400)).2 = ⟨none, 1, []⟩ ∧
     (transcribeAudio (envConst err429)).2 = ⟨none, 1, []⟩) :=
  ⟨⟨by decide, rfl, rfl, by decide, rfl⟩,
   transient_terminal_classification errReset err503 errNoStatus "ECONNRESET" 503
     (by decide) rfl rfl (by decide) rfl⟩

/-! ## C10: totality of transcribeAudio at its interface -/

/-- Helper: the loop starts at most `fuel` further attempts. -/
theorem transcribeFrom_attempts_le (o : Nat → Except JsError String) :
    ∀ (f a : Nat), (transcribeFrom o a f).attemptsMade ≤ a + f := by
  intro f
  induction f with
  | zero => intro a; simp [transcribeFrom]
  | succ f ih =>
    intro a
    simp only [transcribeFrom]
    split
    · exact (by omega : a + 1 ≤ a + (f + 1))
    · split
      · exact (by omega : a + 1 ≤ a + (f + 1))
      · exact le_trans (ih (a + 1)) (by omega)

/-- C10: `transcribeAudio` is total at its interface: for every environment
— including a failing `stat`, unreadable file, or any API rejection at any
attempt — the explicit exception channel carries no error (everything is
caught inside the function), the returned value is a string or null, and at
most 3 attempts are started. -/
theorem transcribeAudio_total (env : TranscribeEnv) :
    transcribeAudioChecked env = .ok (transcribeAudio env) ∧
    (transcribeAudio env).2.attemptsMade ≤ maxAttempts := by
  constructor
  · cases h : env.statResult with
    | ok n =>
      simp [transcribeAudioChecked, exceptCatch, Except.map, h, transcribeAudio, statSize]
    | error e =>
      simp [transcribeAudioChecked, exceptCatch, Except.map, h, transcribeAudio, statSize]
  · have := transcribeFrom_attempts_le (attemptOnce env) maxAttempts 0
    simpa [transcribeAudio] using this

/-! ## C2: speaking-started is idempotent per participant -/

/-- Helper: `Map.set` makes the entry visible to `Map.get`. -/
theorem lookupStream_setStream (l : List (String × ParticipantCapture)) (u : String)
    (p : ParticipantCapture) : lookupStream (setStream l u p) u = some p := by
  induction l with
  | nil => simp [setStream, lookupStream]
  | cons hd tl ih =>
    by_cases h : hd.1 == u
    · cases hd; simp_all [setStream, lookupStream]
    · cases hd; simp_all [setStream, lookupStream]

/-- Helper: an untracked user has no entries. -/
theorem countStreams_eq_zero (u : String) :
    ∀ l : List (String × ParticipantCapture),
      lookupStream l u = none → countStreams l u = 0 := by
  intro l
  induction l with
  | nil => intro _; rfl
  | cons hd tl ih =>
    intro h
    obtain ⟨v, q⟩ := hd
    by_cases hv : v == u
    · simp [lookupStream, hv] at h
    · simp only [lookupStream, hv, Bool.false_eq_true, if_false] at h
      simpa [countStreams, hv] using ih h

/-- Helper: setting a previously untracked user adds exactly one entry. -/
theorem countStreams_setStream (u : String) (p : ParticipantCapture) :
    ∀ l : List (String × ParticipantCapture),
      lookupStream l u = none →
      countStreams (setStream l u p) u = countStreams l u + 1 := by
  intro l
  induction l with
  | nil => intro _; simp [setStream, countStreams]
  | cons hd tl ih =>
    intro h
    obtain ⟨v, q⟩ := hd
    by_cases hv : v == u
    · simp [lookupStream, hv] at h
    · simp only [lookupStream, hv, Bool.false_eq_true, if_false] at h
      simpa [setStream, countStreams, hv] using ih h

/-- Helper: a speaking-started event for a user already tracked with a
persistent subscription changes nothing. -/
theorem speakingStart_persistent_fixed (w : CaptureWorld) (u : String)
    (p : ParticipantCapture) (h : lookupStream w.session.audioStreams u = some p)
    (hp : p.persistent = true) : speakingStart w u = w := by
  by_cases ha : w.active
  · simp [speakingStart, ha, h, hp]
  · simp [speakingStart, ha]

/-- C2: for any N ≥ 1 consecutive speaking-started events for a participant
not yet tracked in an active session, exactly one `audioStreams` entry (one
durable append destination) and exactly one decode pipeline exist
afterwards, and the world state equals the state after the first event
alone — every later event is a no-op. -/
theorem speakingStart_idempotent (w : CaptureWorld) (u : String) (n : Nat)
    (ha : w.active = true)
    (hfresh : lookupStream w.session.audioStreams u = none)
    (hlog : countPipelines w u = 0) :
    countStreams (applyEvents w u (n + 1)).session.audioStreams u = 1 ∧
    countPipelines (applyEvents w u (n + 1)) u = 1 ∧
    applyEvents w u (n + 1) = applyEvents w u 1 := by
  have hone : applyEvents w u 1 = createStream w u := by
    simp [applyEvents, speakingStart, ha, hfresh]
  have hfix : speakingStart (createStream w u) u = createStream w u := by
    refine speakingStart_persistent_fixed _ _ ⟨true, .capturing, w.nextId, none⟩ ?_ rfl
    exact lookupStream_setStream _ _ _
  have hall : ∀ m, applyEvents w u (m + 1) = createStream w u := by
    intro m
    induction m with
    | zero => exact hone
    | succ m ih =>
      show speakingStart (applyEvents w u (m + 1)) u = createStream w u
      rw [ih]; exact hfix
  refine ⟨?_, ?_, by rw [hall n, hone]⟩
  · rw [hall n]
    show countStreams (setStream w.session.audioStreams u _) u = 1
    rw [countStreams_setStream u _ _ hfresh, countStreams_eq_zero u _ hfresh]
  · rw [hall n]
    show countPipelines ⟨_, _, w.createdPipelines ++ [(u, w.nextId)], _⟩ u = 1
    simp only [countPipelines, List.filter_append] at hlog ⊢
    simp [hlog, List.length_eq_zero.mp hlog]

/-- C2 witness: two extra events after the first for fresh user "carol". -/
theorem speakingStart_idempotent_witness :
    (sampleWorld.active = true ∧
     lookupStream sampleWorld.session.audioStreams "carol" = none ∧
     countPipelines sampleWorld "carol" = 0) ∧
    (countStreams (applyEvents sampleWorld "carol" 3).session.audioStreams "carol" = 1 ∧
     countPipelines (applyEvents sampleWorld "carol" 3) "carol" = 1 ∧
     applyEvents sampleWorld "carol" 3 = applyEvents sampleWorld "carol" 1) :=
  ⟨⟨rfl, by decide, by decide⟩,
   speakingStart_idempotent sampleWorld "carol" 2 rfl (by decide) (by decide)⟩

/-! ## C3: stop finalizes every capture before processing -/

/-- Helper: finalization always leaves a capture closed. -/
theorem finalizeCapture_closed (p : ParticipantCapture) :
    (finalizeCapture p).1.state = .closed := by
  obtain ⟨pp, ps, pi, pc⟩ := p
  cases ps with
  | closed => rfl
  | capturing =>
    cases pc with
    | none => rfl
    | some t => by_cases ht : t ≤ forceCloseMs <;> simp [finalizeCapture, ht]

/-- Helper: each close promise resolves within the force-close timeout. -/
theorem finalizeCapture_bounded (p : ParticipantCapture) :
    (finalizeCapture p).2 ≤ forceCloseMs := by
  obtain ⟨pp, ps, pi, pc⟩ := p
  cases ps with
  | closed => exact Nat.zero_le _
  | capturing =>
    cases pc with
    | none => exact Nat.le_refl _
    | some t => by_cases ht : t ≤ forceCloseMs <;> simp [finalizeCapture, ht]

/-- Helper: deleting a guild removes it from the registry. -/
theorem lookupGuild_removeGuild (g : String) :
    ∀ reg : Registry, lookupGuild (removeGuild reg g) g = none := by
  intro reg
  induction reg with
  | nil => rfl
  | cons hd tl ih =>
    obtain ⟨v, s⟩ := hd
    by_cases hv : v == g
    · simpa [removeGuild, List.filter_cons, bne, hv] using ih
    · simpa [removeGuild, List.filter_cons, lookupGuild, bne, hv] using ih

/-- C3: stopping a session with an active recording finalizes every
participant — after stop, no capture remains `Capturing`, even captures
whose stream never closes cleanly (`cleanCloseTime = none`) are force-closed
within the 2000 ms per-stream timeout — the overall wait is capped at
3000 ms, the session handed to processing is already in the `Processing`
phase with all captures closed, and the scope is freed in the registry. -/
theorem stopRecording_finalizes_all (reg : Registry) (g : String) (s : Session)
    (h : lookupGuild reg g = some s) :
    ∃ fin, (stopRecording reg g).finalized = some fin ∧
      fin.phase = .processing ∧
      (∀ e ∈ fin.audioStreams, e.2.state = .closed) ∧
      (∀ e ∈ s.audioStreams, (finalizeCapture e.2).2 ≤ forceCloseMs) ∧
      (stopRecording reg g).waitMs ≤ stopAllWaitMs ∧
      lookupGuild (stopRecording reg g).registry g = none := by
  refine ⟨⟨.processing, s.startTime,
      s.audioStreams.map (fun p => (p.1, (finalizeCapture p.2).1)), s.reconnectAttempts⟩,
    by simp [stopRecording, h], rfl, ?_, fun e _ => finalizeCapture_bounded e.2,
    ?_, ?_⟩
  · intro e he
    simp only [List.mem_map] at he
    obtain ⟨q, _, hq⟩ := he
    rw [← hq]
    exact finalizeCapture_closed q.2
  · simp only [stopRecording, h]
    exact min_le_right _ _
  · simp only [stopRecording, h]
    exact lookupGuild_removeGuild g reg

/-- C3 witness: the sample session, whose "bob" capture hangs forever. -/
theorem stopRecording_finalizes_all_witness :
    lookupGuild sampleRegistry "guild1" = some sampleSession ∧
    (∃ fin, (stopRecording sampleRegistry "guild1").finalized = some fin ∧
      fin.phase = .processing ∧
      (∀ e ∈ fin.audioStreams, e.2.state = .closed) ∧
      (∀ e ∈ sampleSession.audioStreams, (finalizeCapture e.2).2 ≤ forceCloseMs) ∧
      (stopRecording sampleRegistry "guild1").waitMs ≤ stopAllWaitMs ∧
      lookupGuild (stopRecording sampleRegistry "guild1").registry "guild1" = none) :=
  ⟨by decide, stopRecording_finalizes_all sampleRegistry "guild1" sampleSession (by decide)⟩

/-! ## C4: proactive chunking above the size threshold (corrected) -/

/-- C4 counterexample: for a 15 MB artifact — above the 12 MB threshold —
whose segmentation produces no chunks, the code DOES attempt whole-file
transcription (the `transcribeWhole` call is issued after the transcode),
so "whole-file transcription is never attempted" fails. -/
theorem oversized_whole_file_cex :
    chunkThresholdBytes < cexProcEnv.mp3Size "u" ∧
    cexProcEnv.chunkFiles "u" = [] ∧
    (processUser cexProcEnv "u" sampleRecord).2 =
      [.transcode "u", .transcribeWhole "u"] := by
  refine ⟨by decide, rfl, rfl⟩

/-- Helper: the per-chunk loop calls the transcription service once per
chunk, in segment order. -/
theorem combineChunks_events (env : ProcEnv) (u : String) :
    ∀ cs : List Nat, (combineChunks env u cs).2 = cs.map (Event.transcribeChunk u) := by
  intro cs
  induction cs with
  | nil => rfl
  | cons i rest ih => simp [combineChunks, ih]

/-- Helper: the per-chunk loop concatenates the successful (non-empty)
per-segment texts in segment order, each followed by a newline, skipping
failed segments. -/
theorem combineChunks_text (env : ProcEnv) (u : String) :
    ∀ cs : List Nat,
      (combineChunks env u cs).1 =
        (cs.map fun i =>
          match env.chunkText u i with
          | some t => if t.isEmpty then [] else t ++ ['\n']
          | none => []).flatten := by
  intro cs
  induction cs with
  | nil => rfl
  | cons i rest ih => simp [combineChunks, ih]

/-- C4 (amended): for every compressed artifact above the chunk threshold
(default 12 MB) the orchestrator invokes chunking proactively; when
segmentation produces at least one chunk, whole-file transcription is never
attempted and the participant's transcript is the in-order concatenation of
the successful per-segment results (failed segments are skipped without
aborting); only when segmentation produces no chunks at all is whole-file
transcription attempted, as a last resort. -/
theorem proactive_chunking (env : ProcEnv) (u : String) (b : Nat)
    (h : chunkThresholdBytes < b) :
    (env.chunkFiles u ≠ [] →
      orchestrateTranscription env u b =
        (jsTrim ((env.chunkFiles u).map fun i =>
            match env.chunkText u i with
            | some t => if t.isEmpty then [] else t ++ ['\n']
            | none => []).flatten,
         (env.chunkFiles u).map (Event.transcribeChunk u)) ∧
      Event.transcribeWhole u ∉ (orchestrateTranscription env u b).2) ∧
    (env.chunkFiles u = [] →
      (orchestrateTranscription env u b).2 = [Event.transcribeWhole u]) := by
  constructor
  · intro hne
    have hcs : (env.chunkFiles u).isEmpty = false := by
      simpa [List.isEmpty_iff] using hne
    have heq : orchestrateTranscription env u b =
        (jsTrim (combineChunks env u (env.chunkFiles u)).1,
         (combineChunks env u (env.chunkFiles u)).2) := by
      simp [orchestrateTranscription, h, hcs]
    rw [combineChunks_events, combineChunks_text] at heq
    refine ⟨heq, ?_⟩
    rw [heq]
    simp [List.mem_map]
  · intro he
    simp [orchestrateTranscription, h, he]

/-- C4 witness: a 15 MB artifact segmented into two chunks, the second of
which fails to transcribe. -/
theorem proactive_chunking_witness :
    chunkThresholdBytes < 15 * 1048576 ∧
    ((chunkProcEnv.chunkFiles "u" ≠ [] →
      orchestrateTranscription chunkProcEnv "u" (15 * 1048576) =
        (jsTrim ((chunkProcEnv.chunkFiles "u").map fun i =>
            match chunkProcEnv.chunkText "u" i with
            | some t => if t.isEmpty then [] else t ++ ['\n']
            | none => []).flatten,
         (chunkProcEnv.chunkFiles "u").map (Event.transcribeChunk "u")) ∧
      Event.transcribeWhole "u" ∉ (orchestrateTranscription chunkProcEnv "u" (15 * 1048576)).2) ∧
     (chunkProcEnv.chunkFiles "u" = [] →
      (orchestrateTranscription chunkProcEnv "u" (15 * 1048576)).2 =
        [Event.transcribeWhole "u"])) :=
  ⟨by decide, proactive_chunking chunkProcEnv "u" (15 * 1048576) (by decide)⟩

/-! ## C7: empty captures are skipped before transcoding -/

/-- Helper: processing distributes over concatenation of the user list. -/
theorem processAll_append (env : ProcEnv) (xs ys : List (String × UserRecord)) :
    processAll env (xs ++ ys) =
      ((processAll env xs).1 ++ (processAll env ys).1,
       (processAll env xs).2.1 ++ (processAll env ys).2.1,
       (processAll env xs).2.2 ++ (processAll env ys).2.2) := by
  induction xs with
  | nil => simp [processAll]
  | cons hd tl ih =>
    obtain ⟨u, rec⟩ := hd
    simp [processAll, ih]

/-- C7: a participant whose raw capture exists but is zero bytes is a
defined per-participant failure: the outcome is `emptyCapture`, no
transcode (and no transcription) call is ever issued for that participant,
and every other participant's outcome, the accumulated transcript, and the
external calls are exactly as if the empty participant were absent. -/
theorem empty_capture_skipped (env : ProcEnv) (u : String) (rec : UserRecord)
    (l1 l2 : List (String × UserRecord))
    (hp : rec.persistent = true) (he : rec.aggregatedExists = true)
    (hs : rec.aggregatedSize = 0) :
    processUser env u rec = (.emptyCapture, []) ∧
    (processAll env (l1 ++ (u, rec) :: l2)).1 =
      (processAll env l1).1 ++ (u, .emptyCapture) :: (processAll env l2).1 ∧
    (processAll env (l1 ++ (u, rec) :: l2)).2.1 = (processAll env (l1 ++ l2)).2.1 ∧
    (processAll env (l1 ++ (u, rec) :: l2)).2.2 = (processAll env (l1 ++ l2)).2.2 := by
  have hu : processUser env u rec = (.emptyCapture, []) := by
    simp [processUser, hp, he, hs]
  refine ⟨hu, ?_, ?_, ?_⟩ <;>
    simp [processAll_append, processAll, hu, userContribution]

/-- C7 witness: an empty capture sandwiched between two recorded users. -/
theorem empty_capture_skipped_witness :
    (emptyRecord.persistent = true ∧ emptyRecord.aggregatedExists = true ∧
     emptyRecord.aggregatedSize = 0) ∧
    (processUser chunkProcEnv "mid" emptyRecord = (.emptyCapture, []) ∧
     (processAll chunkProcEnv
        ([("ann", sampleRecord)] ++ ("mid", emptyRecord) :: [("ben", sampleRecord)])).1 =
       (processAll chunkProcEnv [("ann", sampleRecord)]).1 ++
         ("mid", .emptyCapture) :: (processAll chunkProcEnv [("ben", sampleRecord)]).1 ∧
     (processAll chunkProcEnv
        ([("ann", sampleRecord)] ++ ("mid", emptyRecord) :: [("ben", sampleRecord)])).2.1 =
       (processAll chunkProcEnv ([("ann", sampleRecord)] ++ [("ben", sampleRecord)])).2.1 ∧
     (processAll chunkProcEnv
        ([("ann", sampleRecord)] ++ ("mid", emptyRecord) :: [("ben", sampleRecord)])).2.2 =
       (processAll chunkProcEnv ([("ann", sampleRecord)] ++ [("ben", sampleRecord)])).2.2) :=
  ⟨⟨rfl, rfl, rfl⟩,
   empty_capture_skipped chunkProcEnv "mid" emptyRecord
     [("ann", sampleRecord)] [("ben", sampleRecord)] rfl rfl rfl⟩

/-! ## String helper lemmas for splitMessage -/

/-- Trimming the right end never lengthens a string. -/
theorem trimRight_length_le (s : List Char) : (trimRight s).length ≤ s.length := by
  simp only [trimRight, List.length_reverse]
  calc (s.reverse.dropWhile wsChar).length
      ≤ s.reverse.length := (List.dropWhile_sublist wsChar).length_le
    _ = s.length := List.length_reverse s

/-- A trailing whitespace character is dropped by right trimming. -/
theorem trimRight_snoc_ws (s : List Char) (c : Char) (hc : wsChar c = true) :
    trimRight (s ++ [c]) = trimRight s := by
  simp [trimRight, List.reverse_append, List.dropWhile_cons, hc]

/-- Trimming never lengthens a string. -/
theorem jsTrim_length_le (s : List Char) : (jsTrim s).length ≤ s.length :=
  le_trans (trimRight_length_le _) ((List.dropWhile_sublist wsChar).length_le)

/-- A trailing whitespace character is dropped by trimming. -/
theorem jsTrim_snoc_ws (s : List Char) (c : Char) (hc : wsChar c = true) :
    jsTrim (s ++ [c]) = jsTrim s := by
  simp only [jsTrim, List.dropWhile_append]
  by_cases h : (s.dropWhile wsChar).isEmpty
  · have h0 : s.dropWhile wsChar = [] := List.isEmpty_iff.mp h
    simp [h, h0, List.dropWhile_cons, hc]
  · simp [h, trimRight_snoc_ws _ _ hc]

/-- A nonempty `tempLine` satisfying the invariant decomposes. -/
theorem tempInv_nonempty (maxLength : Nat) (t : List Char) (ht : tempInv maxLength t)
    (hemp : ¬ t.isEmpty = true) :
    ∃ t0, t = t0 ++ [' '] ∧ t0.length ≤ maxLength := by
  rcases ht with h0 | h0
  · subst h0; simp at hemp
  · exact h0

/-- A nonempty `currentChunk` satisfying the invariant decomposes. -/
theorem curInv_nonempty (maxLength : Nat) (c : List Char) (hc : curInv maxLength c)
    (hemp : ¬ c.isEmpty = true) :
    ∃ c0, c = c0 ++ ['\n'] ∧ c0.length ≤ maxLength := by
  rcases hc with h0 | h0
  · subst h0; simp at hemp
  · exact h0

/-- The word-wrap loop: under the all-words-short hypothesis, every pushed
chunk has length at most `maxLength`, and the `tempLine` invariant is
maintained. -/
theorem wrapWords_bounded (maxLength : Nat) :
    ∀ (ws : List (List Char)) (temp : List Char),
      (∀ w ∈ ws, w.length ≤ maxLength) → tempInv maxLength temp →
      (∀ c ∈ (wrapWords maxLength ws temp).1, c.length ≤ maxLength) ∧
      tempInv maxLength (wrapWords maxLength ws temp).2 := by
  intro ws
  induction ws with
  | nil =>
    intro temp _ ht
    exact ⟨by simp [wrapWords], by simpa [wrapWords] using ht⟩
  | cons w rest ih =>
    intro temp hw ht
    have hwrest : ∀ x ∈ rest, x.length ≤ maxLength :=
      fun x hx => hw x (List.mem_cons_of_mem _ hx)
    have hww : w.length ≤ maxLength := hw w (List.mem_cons_self _ _)
    by_cases hg : maxLength < temp.length + w.length + 1
    · by_cases hemp : temp.isEmpty
      · -- force split of an oversized word on an empty tempLine
        have hinv : tempInv maxLength (w.drop maxLength ++ [' ']) :=
          Or.inr ⟨w.drop maxLength, rfl, by simp [List.length_drop]; omega⟩
        obtain ⟨hch, htm⟩ := ih (w.drop maxLength ++ [' ']) hwrest hinv
        simp only [wrapWords, if_pos hg, if_pos hemp]
        refine ⟨?_, htm⟩
        intro c hc
        rcases List.mem_cons.mp hc with h1 | h2
        · rw [h1, List.length_take]; exact Nat.min_le_left _ _
        · exact hch c h2
      · -- push the trimmed tempLine, restart from the current word
        obtain ⟨t0, ht0e, ht0l⟩ := tempInv_nonempty maxLength temp ht hemp
        have hinv : tempInv maxLength (w ++ [' ']) := Or.inr ⟨w, rfl, hww⟩
        obtain ⟨hch, htm⟩ := ih (w ++ [' ']) hwrest hinv
        simp only [wrapWords, if_pos hg, if_neg hemp]
        refine ⟨?_, htm⟩
        intro c hc
        rcases List.mem_cons.mp hc with h1 | h2
        · rw [h1, ht0e, jsTrim_snoc_ws t0 ' ' (by decide)]
          exact le_trans (jsTrim_length_le t0) ht0l
        · exact hch c h2
    · -- the word still fits: accumulate
      have hinv : tempInv maxLength (temp ++ w ++ [' ']) := by
        refine Or.inr ⟨temp ++ w, rfl, ?_⟩
        simp only [List.length_append]; omega
      obtain ⟨hch, htm⟩ := ih (temp ++ w ++ [' ']) hwrest hinv
      simp only [wrapWords, if_neg hg]
      exact ⟨hch, htm⟩

/-- The line loop: under the all-words-short hypothesis, every chunk pushed
from any invariant-satisfying state has length at most `maxLength + 1`
(the `+ 1` is the raw, untrimmed flush before a long line, which keeps its
trailing newline). -/
theorem splitLines_bounded (maxLength : Nat) :
    ∀ (lines : List (List Char)) (cur : List Char),
      (∀ l ∈ lines, ∀ w ∈ jsSplit ' ' l, w.length ≤ maxLength) →
      curInv maxLength cur →
      ∀ c ∈ splitLines maxLength lines cur, c.length ≤ maxLength + 1 := by
  intro lines
  induction lines with
  | nil =>
    intro cur _ hc c hmem
    by_cases hemp : cur.isEmpty
    · simp [splitLines, hemp] at hmem
    · simp only [splitLines, if_neg hemp, List.mem_singleton] at hmem
      obtain ⟨c0, hce, hcl⟩ := curInv_nonempty maxLength cur hc hemp
      rw [hmem, hce, jsTrim_snoc_ws c0 '\n' (by decide)]
      exact le_trans (le_trans (jsTrim_length_le c0) hcl) (Nat.le_succ _)
  | cons line rest ih =>
    intro cur hl hc c hmem
    have hlrest : ∀ l ∈ rest, ∀ w ∈ jsSplit ' ' l, w.length ≤ maxLength :=
      fun l hll => hl l (List.mem_cons_of_mem _ hll)
    have hlline : ∀ w ∈ jsSplit ' ' line, w.length ≤ maxLength :=
      hl line (List.mem_cons_self _ _)
    by_cases hlong : maxLength < line.length
    · -- long line: raw flush, word wrap, recurse
      obtain ⟨hch, htm⟩ :=
        wrapWords_bounded maxLength (jsSplit ' ' line) [] hlline (Or.inl rfl)
      have hcur2 : curInv maxLength
          (if (wrapWords maxLength (jsSplit ' ' line) []).2.isEmpty then ([] : List Char)
           else jsTrim (wrapWords maxLength (jsSplit ' ' line) []).2 ++ ['\n']) := by
        by_cases h2 : (wrapWords maxLength (jsSplit ' ' line) []).2.isEmpty
        · simp [h2, curInv]
        · simp only [if_neg h2]
          obtain ⟨t0, hte, htl⟩ :=
            tempInv_nonempty maxLength (wrapWords maxLength (jsSplit ' ' line) []).2 htm h2
          refine Or.inr ⟨jsTrim (wrapWords maxLength (jsSplit ' ' line) []).2, rfl, ?_⟩
          rw [hte, jsTrim_snoc_ws t0 ' ' (by decide)]
          exact le_trans (jsTrim_length_le t0) htl
      simp only [splitLines, if_pos hlong] at hmem
      rcases List.mem_append.mp hmem with hmm | hrec
      · rcases List.mem_append.mp hmm with hpre | hwrap
        · by_cases hemp : cur.isEmpty
          · simp [hemp] at hpre
          · simp only [if_neg hemp, List.mem_singleton] at hpre
            obtain ⟨c0, hce, hcl⟩ := curInv_nonempty maxLength cur hc hemp
            rw [hpre, hce]
            simp only [List.length_append, List.length_singleton]
            omega
        · exact le_trans (hch c hwrap) (Nat.le_succ _)
      · exact ih _ hlrest hcur2 c hrec
    · by_cases hover : maxLength < cur.length + line.length + 1
      · -- flush the trimmed chunk, restart from this line
        simp only [splitLines, if_neg hlong, if_pos hover] at hmem
        have hinv : curInv maxLength (line ++ ['\n']) :=
          Or.inr ⟨line, rfl, by omega⟩
        rcases List.mem_append.mp hmem with hpre | hrec
        · by_cases hemp : cur.isEmpty
          · simp [hemp] at hpre
          · simp only [if_neg hemp, List.mem_singleton] at hpre
            obtain ⟨c0, hce, hcl⟩ := curInv_nonempty maxLength cur hc hemp
            rw [hpre, hce, jsTrim_snoc_ws c0 '\n' (by decide)]
            exact le_trans (le_trans (jsTrim_length_le c0) hcl) (Nat.le_succ _)
        · exact ih _ hlrest hinv c hrec
      · -- accumulate the line
        simp only [splitLines, if_neg hlong, if_neg hover] at hmem
        have hinv : curInv maxLength (cur ++ line ++ ['\n']) := by
          refine Or.inr ⟨cur ++ line, rfl, ?_⟩
          simp only [List.length_append]; omega
        exact ih _ hlrest hinv c hmem

/-! ## C8: message units are size-bounded (corrected) -/

/-- C8 counterexample: with `maxLength = 5`, a single word of length 16 is
force-split only once, leaving the unit `"fghijklmnop"` of length 11; and a
full chunk flushed raw before a long line keeps its trailing newline,
producing the unit `"abcde\n"` of length 6.  Both exceed `maxLength`, so
"every message unit has length at most maxLength" fails. -/
theorem splitMessage_bound_cex :
    splitMessage "abcdefghijklmnop".toList 5 =
      ["abcde".toList, "fghijklmnop".toList] ∧
    "fghijklmnop".toList.length = 11 ∧
    splitMessage "abcde\naa bb cc".toList 5 =
      ["abcde\n".toList, "aa".toList, "bb".toList, "cc".toList] ∧
    "abcde\n".toList.length = 6 := by
  refine ⟨by decide, by decide, by decide, by decide⟩

/-- C8 (amended): whenever every space-separated word of every line of the
text has length at most `maxLength`, every message unit returned by
`splitMessage` has length at most `maxLength + 1`; the one extra character
is the trailing newline of a chunk flushed untrimmed when a long line
follows accumulated content.  Without the word-length restriction a single
word longer than `maxLength` is force-split only once and its remainder can
exceed any bound. -/
theorem splitMessage_units_bounded (text : List Char) (maxLength : Nat)
    (hw : ∀ line ∈ jsSplit '\n' text, ∀ w ∈ jsSplit ' ' line, w.length ≤ maxLength) :
    ∀ c ∈ splitMessage text maxLength, c.length ≤ maxLength + 1 :=
  splitLines_bounded maxLength (jsSplit '\n' text) [] hw (Or.inl rfl)

/-- C8 witness: a two-line text whose words all fit in a unit of size 5. -/
theorem splitMessage_units_bounded_witness :
    (∀ line ∈ jsSplit '\n' "ab cd\nef".toList, ∀ w ∈ jsSplit ' ' line, w.length ≤ 5) ∧
    (∀ c ∈ splitMessage "ab cd\nef".toList 5, c.length ≤ 5 + 1) :=
  ⟨by decide, splitMessage_units_bounded "ab cd\nef".toList 5 (by decide)⟩

/-! ## Content preservation lemmas for the round trip -/

/-- `split` never returns the empty list. -/
theorem jsSplit_ne_nil (sep : Char) : ∀ s : List Char, jsSplit sep s ≠ [] := by
  intro s
  cases s with
  | nil => simp [jsSplit]
  | cons c rest =>
    simp only [jsSplit]
    by_cases hc : c = sep
    · simp [hc]
    · simp only [if_neg hc]
      cases h : jsSplit sep rest <;> simp

/-- Filtering distributes over append. -/
theorem nonWs_append (s t : List Char) : nonWs (s ++ t) = nonWs s ++ nonWs t :=
  List.filter_append _ _

/-- A leading whitespace character has no non-whitespace content. -/
theorem nonWs_cons_ws (c : Char) (hc : wsChar c = true) (s : List Char) :
    nonWs (c :: s) = nonWs s := by
  simp [nonWs, List.filter_cons, hc]

/-- A trailing whitespace character has no non-whitespace content. -/
theorem nonWs_snoc_ws (s : List Char) (c : Char) (hc : wsChar c = true) :
    nonWs (s ++ [c]) = nonWs s := by
  simp [nonWs_append, nonWs, List.filter_cons, hc]

theorem nonWs_space : nonWs [' '] = [] := rfl

theorem nonWs_newline : nonWs ['\n'] = [] := rfl

theorem nonWs_cons_space (s : List Char) : nonWs (' ' :: s) = nonWs s :=
  nonWs_cons_ws ' ' (by decide) s

theorem nonWs_cons_newline (s : List Char) : nonWs ('\n' :: s) = nonWs s :=
  nonWs_cons_ws '\n' (by decide) s

/-- A general cons step for the content filter. -/
theorem nonWs_cons (c : Char) (s : List Char) :
    nonWs (c :: s) = (if wsChar c then ([] : List Char) else [c]) ++ nonWs s := by
  by_cases hc : wsChar c <;> simp [nonWs, List.filter_cons, hc]

/-- Dropping leading whitespace preserves content. -/
theorem nonWs_dropWhile (s : List Char) : nonWs (s.dropWhile wsChar) = nonWs s := by
  induction s with
  | nil => rfl
  | cons c rest ih =>
    by_cases hc : wsChar c
    · simpa [List.dropWhile_cons, hc, nonWs_cons_ws c hc] using ih
    · simp [List.dropWhile_cons, hc]

theorem nonWs_reverse (s : List Char) : nonWs s.reverse = (nonWs s).reverse :=
  List.filter_reverse _ _

/-- Right trimming preserves content. -/
theorem nonWs_trimRight (s : List Char) : nonWs (trimRight s) = nonWs s := by
  calc nonWs (trimRight s)
      = (nonWs (s.reverse.dropWhile wsChar)).reverse := nonWs_reverse _
    _ = (nonWs s.reverse).reverse := by rw [nonWs_dropWhile]
    _ = (nonWs s).reverse.reverse := by rw [nonWs_reverse]
    _ = nonWs s := List.reverse_reverse _

/-- Trimming preserves content. -/
theorem nonWs_jsTrim (s : List Char) : nonWs (jsTrim s) = nonWs s := by
  simp only [jsTrim, nonWs_trimRight, nonWs_dropWhile]

/-- Splitting on a whitespace separator preserves content. -/
theorem nonWs_flatten_jsSplit (sep : Char) (hsep : wsChar sep = true) :
    ∀ s : List Char, nonWs ((jsSplit sep s).flatten) = nonWs s := by
  intro s
  induction s with
  | nil => rfl
  | cons c rest ih =>
    simp only [jsSplit]
    by_cases hc : c = sep
    · subst hc
      simp only [eq_self_iff_true, if_true, List.flatten_cons, List.nil_append]
      rw [ih, nonWs_cons_ws c hsep]
    · simp only [if_neg hc]
      cases h : jsSplit sep rest with
      | nil => exact absurd h (jsSplit_ne_nil sep rest)
      | cons w ws =>
        rw [h] at ih
        simp only [List.flatten_cons, List.cons_append] at ih ⊢
        rw [nonWs_cons, nonWs_cons, ih]

/-- The word-wrap loop preserves content: the pushed chunks plus the final
`tempLine` carry exactly the non-whitespace characters of the initial
`tempLine` and the words, in order. -/
theorem wrapWords_nonWs (maxLength : Nat) :
    ∀ (ws : List (List Char)) (temp : List Char),
      nonWs ((wrapWords maxLength ws temp).1.flatten ++ (wrapWords maxLength ws temp).2) =
      nonWs (temp ++ ws.flatten) := by
  intro ws
  induction ws with
  | nil => intro temp; simp [wrapWords]
  | cons w rest ih =>
    intro temp
    by_cases hg : maxLength < temp.length + w.length + 1
    · by_cases hemp : temp.isEmpty
      · have htemp : temp = [] := List.isEmpty_iff.mp hemp
        subst htemp
        simp only [wrapWords, if_pos hg, if_pos hemp]
        rw [List.flatten_cons, List.append_assoc, nonWs_append,
          ih (w.drop maxLength ++ [' ']), nonWs_append,
          nonWs_snoc_ws _ _ (by decide : wsChar ' ' = true),
          ← List.append_assoc, ← nonWs_append, List.take_append_drop]
        simp [List.flatten_cons, nonWs_append]
      · simp only [wrapWords, if_pos hg, if_neg hemp]
        rw [List.flatten_cons, List.append_assoc, nonWs_append, ih (w ++ [' ']),
          nonWs_jsTrim, nonWs_append,
          nonWs_snoc_ws _ _ (by decide : wsChar ' ' = true)]
        simp [List.flatten_cons, nonWs_append]
    · simp only [wrapWords, if_neg hg]
      rw [ih (temp ++ w ++ [' '])]
      simp [List.flatten_cons, nonWs_append, nonWs_cons_space,
        nonWs_snoc_ws _ _ (by decide : wsChar ' ' = true), List.append_assoc]

/-- The line loop preserves content: the chunks it emits carry exactly the
non-whitespace characters of `currentChunk` and the remaining lines. -/
theorem splitLines_nonWs (maxLength : Nat) :
    ∀ (lines : List (List Char)) (cur : List Char),
      nonWs ((splitLines maxLength lines cur).flatten) = nonWs (cur ++ lines.flatten) := by
  intro lines
  induction lines with
  | nil =>
    intro cur
    by_cases hemp : cur.isEmpty
    · have hce : cur = [] := List.isEmpty_iff.mp hemp
      subst hce
      simp [splitLines]
    · simp [splitLines, hemp, nonWs_jsTrim]
  | cons line rest ih =>
    intro cur
    by_cases hlong : maxLength < line.length
    · simp only [splitLines, if_pos hlong]
      have hline : nonWs ((jsSplit ' ' line).flatten) = nonWs line :=
        nonWs_flatten_jsSplit ' ' (by decide) line
      have hcur2 : nonWs (if (wrapWords maxLength (jsSplit ' ' line) []).2.isEmpty
            then ([] : List Char)
            else jsTrim (wrapWords maxLength (jsSplit ' ' line) []).2 ++ ['\n']) =
          nonWs (wrapWords maxLength (jsSplit ' ' line) []).2 := by
        by_cases h2 : (wrapWords maxLength (jsSplit ' ' line) []).2.isEmpty
        · have he : (wrapWords maxLength (jsSplit ' ' line) []).2 = [] :=
            List.isEmpty_iff.mp h2
          simp [h2, he]
        · simp [h2, nonWs_snoc_ws _ _ (by decide : wsChar '\n' = true), nonWs_jsTrim]
      have hpre : nonWs ((if cur.isEmpty then ([] : List (List Char)) else [cur]).flatten) =
          nonWs cur := by
        by_cases hce : cur.isEmpty
        · have h0 : cur = [] := List.isEmpty_iff.mp hce
          simp [hce, h0]
        · simp [hce]
      have hw2 : nonWs ((wrapWords maxLength (jsSplit ' ' line) []).1.flatten) ++
          nonWs ((wrapWords maxLength (jsSplit ' ' line) []).2) = nonWs line := by
        have hq := wrapWords_nonWs maxLength (jsSplit ' ' line) []
        rw [nonWs_append, List.nil_append, hline] at hq
        exact hq
      simp only [List.flatten_append, List.flatten_cons, nonWs_append, List.append_assoc]
      rw [hpre, ih _, nonWs_append, hcur2,
        ← List.append_assoc (nonWs ((wrapWords maxLength (jsSplit ' ' line) []).1.flatten)),
        hw2]
    · by_cases hover : maxLength < cur.length + line.length + 1
      · simp only [splitLines, if_neg hlong, if_pos hover]
        have hpre : nonWs ((if cur.isEmpty then ([] : List (List Char))
              else [jsTrim cur]).flatten) = nonWs cur := by
          by_cases hce : cur.isEmpty
          · have h0 : cur = [] := List.isEmpty_iff.mp hce
            simp [hce, h0]
          · simp [hce, nonWs_jsTrim]
        rw [List.flatten_append, nonWs_append, hpre, ih _]
        simp [List.flatten_cons, nonWs_append, nonWs_cons_newline,
          nonWs_snoc_ws _ _ (by decide : wsChar '\n' = true), List.append_assoc]
      · simp only [splitLines, if_neg hlong, if_neg hover]
        rw [ih _]
        simp [List.flatten_cons, nonWs_append, nonWs_cons_newline,
          nonWs_snoc_ws _ _ (by decide : wsChar '\n' = true), List.append_assoc]

/-- Rejoining with newlines preserves content. -/
theorem nonWs_joinNl : ∀ l : List (List Char), nonWs (joinNl l) = nonWs l.flatten
  | [] => rfl
  | [c] => by simp [joinNl]
  | c :: d :: rest => by
    have ih := nonWs_joinNl (d :: rest)
    simp only [joinNl, nonWs_append, List.flatten_cons]
    rw [nonWs_cons_ws '\n' (by decide), ih]
    simp [List.flatten_cons, nonWs_append]

/-! ## C9: split/rejoin round trip -/

/-- C9: splitting any transcript into message units and rejoining the units
with newlines reproduces the original text modulo the induced line breaks
at unit boundaries: the subsequence of non-whitespace characters — the
original content — is preserved exactly, with no character lost or altered;
only whitespace at the induced boundaries may change. -/
theorem splitMessage_roundtrip (text : List Char) (maxLength : Nat) :
    nonWs (joinNl (splitMessage text maxLength)) = nonWs text := by
  rw [nonWs_joinNl]
  show nonWs ((splitLines maxLength (jsSplit '\n' text) []).flatten) = nonWs text
  rw [splitLines_nonWs]
  simpa using nonWs_flatten_jsSplit '\n' (by decide) text

end MagicMinutes
